import Mathlib

/-!
Verification of the term-matching and match-resolution core of the
obsidian-glossary plugin.

The embedding follows the source files:

* `src/linker/virtualLinkMetadata.ts` — `VirtualLinkMetadataBridge.collectMatchesFromText`
  (the scan loop and resolution pipeline), `buildLineOffsets`, `offsetToLoc`,
  `locToOffset`.
* `src/main.ts` — `collectGlossaryMathMatches` (its final sort and greedy
  non-overlap pass, lines 1457-1472).
* `src/unnamed/part_000` — `GlossaryLinker.onload` (the same scan loop shape).

The classes `PrefixTree` / `LinkerCache` (file `linkerCache.ts`) and
`VirtualMatch`'s static helpers (file `virtualLinkDom.ts`) are not part of the
given sources; definitions for them below are modelled from the specification
(sections 3, 4.2, 4.4, 4.5, 7) and are marked `Modelled from the spec:` in
their doc comments.

Text is modelled as `List Char`: the TypeScript loops advance by Unicode code
point (`codePointAt` / `fromCodePoint`), which corresponds one-to-one to the
`Char` entries of the list.  Offsets are `Nat` indices into that list.
-/

/-- Global policy flags consumed by the scan loops (`LinkerPluginSettings`
fields referenced in the embedded code). -/
structure GSettings where
  matchAnyPartsOfWords : Bool
  matchBeginningOfWords : Bool
  matchEndOfWords : Bool
  excludeLinksToOwnNote : Bool
  excludeLinksToRealLinkedFiles : Bool
  onlyLinkOnce : Bool
  antialiasesEnabled : Bool
deriving DecidableEq, Repr

/-- One glossary document as the Term Index delivers it to the automaton:
an opaque identifier (`path`), its base name, the exact-match-only policy
flag, its matchable name variants (title and aliases, with case policy baked
into the variants per spec section 4.3), and its antialias strings. -/
structure GFile where
  path : Nat
  basename : List Char
  exactMatchOnly : Bool
  names : List (List Char)
  antialiases : List (List Char)
deriving DecidableEq, Repr

/-- A terminal reached by the automaton at scan position `stop`, matching the
text span `[start, stop)`; `files` are the documents owning a name variant
equal to that span, `startsAtWordBoundary` records the boundary flag at the
span's start. -/
structure MatchNode where
  start : Nat
  stop : Nat
  files : List GFile
  startsAtWordBoundary : Bool
deriving DecidableEq, Repr

/-- The resolved match unit built by the scan loops (constructor arguments of
`VirtualMatch` in the source, minus the host handle, the running id counter
and the settings reference, none of which affect matching). `isSubWord` is
the `!isWordBoundary` constructor argument. -/
structure VirtualMatch where
  originText : List Char
  vfrom : Nat
  vto : Nat
  files : List GFile
  isAlias : Bool
  isSubWord : Bool
deriving DecidableEq, Repr

/-- Modelled from the spec: `PrefixTree.checkWordBoundary` in the missing
`linkerCache.ts`. Section 4.2: a fixed classifier accepting whitespace,
punctuation and emoji/pictographic ranges. The exact membership of the
punctuation set is irrelevant to every claim; whitespace and an explicit
punctuation list stand in for it. -/
def isWordBoundaryChar (c : Char) : Bool :=
  c.isWhitespace ||
  [',', '.', ';', ':', '!', '?', '(', ')', '[', ']', '<', '>',
   '"', '-', '/', '+', '*', '=', '|', '&', '%', '$', '#', '@', '~', '^'].contains c ||
  (0x1F300 ≤ c.val && c.val ≤ 0x1FAFF)

/-- The character the scan examines at position `i`: the text's code point, or
the synthesized trailing `'\n'` once the end of the text is reached
(`virtualLinkMetadata.ts` line 426). -/
def charAt (text : List Char) (i : Nat) : Char :=
  text.getD i '\n'

/-- Whether a match starting at offset `sp` starts at a word boundary: true at
the start of the text, otherwise determined by the preceding character. -/
def startBoundary (text : List Char) : Nat → Bool
  | 0 => true
  | sp + 1 => isWordBoundaryChar (text.getD sp 'a')

/-- Whether a match ending at offset `i` ends at a word boundary: the
classifier applied to the character at `i` (the first character after the
match), with the synthesized trailing boundary past the end. -/
def endBoundary (text : List Char) (i : Nat) : Bool :=
  isWordBoundaryChar (charAt text i)

/-- Modelled from the spec: the terminal lookup inside
`PrefixTree`/`LinkerCache` (missing `linkerCache.ts`). The documents whose
name variants equal the span `text[sp..i)`; empty names never match (section
7), and the scanned document itself is excluded when self-link exclusion is
requested (section 6). -/
def matchingFilesAt (excl : Option Nat) (text : List Char) (files : List GFile)
    (sp i : Nat) : List GFile :=
  files.filter (fun f =>
    (match excl with
     | some o => f.path != o
     | none => true) &&
    f.names.any (fun nm => !nm.isEmpty && (text.drop sp).take (i - sp) == nm))

/-- Modelled from the spec: `LinkerCache.getCurrentMatchNodes` in the missing
`linkerCache.ts`. Section 4.2: active paths start at every word boundary, and
also at non-boundary positions when match-any-part or match-beginning is
enabled; a terminal at position `i` is every started span `[sp, i)` equal to
some document's name variant. The node records the boundary flag at the
span's start. -/
def getCurrentMatchNodes (s : GSettings) (excl : Option Nat) (text : List Char)
    (files : List GFile) (i : Nat) : List MatchNode :=
  (List.range i).filterMap (fun sp =>
    let started := startBoundary text sp || s.matchAnyPartsOfWords || s.matchBeginningOfWords
    let fs := matchingFilesAt excl text files sp i
    if started && !fs.isEmpty then
      some ⟨sp, i, fs, startBoundary text sp⟩
    else
      none)

/-- Modelled from the spec: `LinkerCache.filterFilesByMatchBoundaries` in the
missing `linkerCache.ts`. Section 4.2 / glossary: a document flagged
exact-match-only survives only when both ends of the match are true word
boundaries, regardless of the partial-matching settings. -/
def filterFilesByMatchBoundaries (files : List GFile) (startB endB : Bool) :
    List GFile :=
  files.filter (fun f => !f.exactMatchOnly || (startB && endB))

/-- The terminals the scan loop lets through at position `i`: the outer gate
`matchAnyPartsOfWords || matchBeginningOfWords || isWordBoundary`
(`virtualLinkMetadata.ts` line 429) followed by the per-node `continue`
condition (lines 436-444). -/
def emittedNodesAt (s : GSettings) (excl : Option Nat) (text : List Char)
    (files : List GFile) (i : Nat) : List MatchNode :=
  if s.matchAnyPartsOfWords || s.matchBeginningOfWords || endBoundary text i then
    (getCurrentMatchNodes s excl text files i).filter (fun node =>
      !(!s.matchAnyPartsOfWords && s.matchBeginningOfWords &&
        !node.startsAtWordBoundary && s.matchEndOfWords && !endBoundary text i))
  else
    []

/-- All gated terminals of the whole scan, in scan order. -/
def collectRawNodes (s : GSettings) (excl : Option Nat) (text : List Char)
    (files : List GFile) : List MatchNode :=
  (List.range (text.length + 1)).flatMap (emittedNodesAt s excl text files)

/-- The body of the scan loop after the gating (`virtualLinkMetadata.ts` lines
446-477): bounds check (`nTo <= nFrom || nFrom < 0 || nTo > text.length`; the
`nFrom < 0` disjunct cannot fire over `Nat`), boundary-based file filtering,
alias detection, and construction of the `VirtualMatch`. `endB` is the word
boundary flag at the scan position. -/
def nodeToMatch (text : List Char) (endB : Bool) (node : MatchNode) :
    Option VirtualMatch :=
  if node.stop ≤ node.start || text.length < node.stop then
    none
  else
    let filtered := filterFilesByMatchBoundaries node.files node.startsAtWordBoundary endB
    if filtered.isEmpty then
      none
    else
      let originText := (text.drop node.start).take (node.stop - node.start)
      let isAlias := !((filtered.map (fun f => f.basename.map Char.toLower)).contains
        (originText.map Char.toLower))
      some ⟨originText, node.start, node.stop, filtered, isAlias, !endB⟩

/-- Matches pushed at scan position `i`. -/
def matchesAtPosition (s : GSettings) (excl : Option Nat) (text : List Char)
    (files : List GFile) (i : Nat) : List VirtualMatch :=
  (emittedNodesAt s excl text files i).filterMap (nodeToMatch text (endBoundary text i))

/-- The raw match list produced by the full scan loop (`while (i <=
text.length)`), position by position. -/
def collectRawMatches (s : GSettings) (excl : Option Nat) (text : List Char)
    (files : List GFile) : List VirtualMatch :=
  (List.range (text.length + 1)).flatMap (matchesAtPosition s excl text files)

/-- Comparator of the candidate sort: by `from` ascending, ties broken by
`(to - from)` descending. In the source this comparator appears literally in
`collectGlossaryMathMatches` (`main.ts` lines 1457-1462). -/
def matchLt (a b : VirtualMatch) : Bool :=
  a.vfrom < b.vfrom || (a.vfrom == b.vfrom && b.vto - b.vfrom < a.vto - a.vfrom)

/-- Stable insertion into a list sorted by the strict comparator `lt`. -/
def insertOrdered (lt : α → α → Bool) (x : α) : List α → List α
  | [] => [x]
  | y :: ys => if lt x y then x :: y :: ys else y :: insertOrdered lt x ys

/-- Stable sort by the strict comparator `lt` (insertion sort; a model of the
stable JavaScript `Array.prototype.sort`). -/
def sortOrdered (lt : α → α → Bool) (l : List α) : List α :=
  l.foldl (fun acc x => insertOrdered lt x acc) []

/-- Modelled from the spec: `VirtualMatch.sort` in the missing
`virtualLinkDom.ts`. Section 4.5 step 1: sort candidates by `from` ascending,
ties broken by `(to - from)` descending; the same comparator appears in-source
in `main.ts` lines 1457-1462. -/
def sortMatches (l : List VirtualMatch) : List VirtualMatch :=
  sortOrdered matchLt l

/-- Modelled from the spec: `VirtualMatch.filterAlreadyLinked` in the missing
`virtualLinkDom.ts`. Section 4.5 step 2: drop a candidate whose only target
documents are already in the supplied set of linked documents. -/
def filterAlreadyLinked (ms : List VirtualMatch) (linked : List Nat) :
    List VirtualMatch :=
  ms.filter (fun m => !(m.files.all (fun f => linked.contains f.path)))

/-- Modelled from the spec: the single resolution pass of
`VirtualMatch.filterOverlapping` in the missing `virtualLinkDom.ts` (sections
4.4 and 4.5 steps 3-4), over the already sorted candidates: a candidate
intersecting an exclusion range is discarded; a candidate starting before the
end of the last kept candidate is discarded; with link-once enabled a
candidate all of whose target documents already appeared in previously kept
matches is discarded; every other candidate is kept. -/
def filterOverlappingAux (excluded : List (Nat × Nat)) (once : Bool) :
    List VirtualMatch → Nat → List Nat → List VirtualMatch
  | [], _, _ => []
  | m :: ms, lastEnd, seen =>
    if excluded.any (fun r => m.vfrom < r.2 && r.1 < m.vto) then
      filterOverlappingAux excluded once ms lastEnd seen
    else if m.vfrom < lastEnd then
      filterOverlappingAux excluded once ms lastEnd seen
    else if once && m.files.all (fun f => seen.contains f.path) then
      filterOverlappingAux excluded once ms lastEnd seen
    else
      m :: filterOverlappingAux excluded once ms m.vto (seen ++ m.files.map (fun f => f.path))

/-- Modelled from the spec: `VirtualMatch.filterOverlapping(matches,
onlyLinkOnce, excludedIntervals)` as called at `virtualLinkMetadata.ts` line
495. -/
def filterOverlapping (ms : List VirtualMatch) (once : Bool)
    (excluded : List (Nat × Nat)) : List VirtualMatch :=
  filterOverlappingAux excluded once ms 0 []

/-- Whether `pat` occurs as a contiguous substring of `text`. -/
def containsSub (pat text : List Char) : Bool :=
  (List.range (text.length + 1)).any (fun k => (text.drop k).take pat.length == pat)

/-- Modelled from the spec: `LinkerCache.isMatchExcludedByAntialias` in the
missing `linkerCache.ts`. Section 4.5 step 5 with the whole buffer as the
context window; empty antialias strings never match (section 7). The match
offsets are part of the source signature but unused with this window. -/
def isMatchExcludedByAntialias (text : List Char) (_mfrom _mto : Nat)
    (files : List GFile) : Bool :=
  files.any (fun f => f.antialiases.any (fun a => !a.isEmpty && containsSub a text))

/-- Stages 1-3 of the resolution in
`VirtualLinkMetadataBridge.collectMatchesFromText` (`virtualLinkMetadata.ts`
lines 485-493): sort the raw matches, then the two optional
`filterAlreadyLinked` passes. `explicitlyLinked` is the externally computed
set of documents already linked by real links; the `alreadyLinkedFiles` set of
the source is empty at the point of the `onlyLinkOnce` pre-filter (it is only
populated after resolution, line 505), so that pre-filter runs on the empty
set, exactly as in the source. -/
def resolvedBeforeOverlap (s : GSettings) (sourceId : Option Nat)
    (explicitlyLinked : List Nat) (text : List Char) (files : List GFile) :
    List VirtualMatch :=
  let m1 := sortMatches (collectRawMatches s
    (if s.excludeLinksToOwnNote then sourceId else none) text files)
  let m2 := if s.excludeLinksToRealLinkedFiles then filterAlreadyLinked m1 explicitlyLinked else m1
  if s.onlyLinkOnce then filterAlreadyLinked m2 [] else m2

/-- The full scan-and-resolution pipeline of
`VirtualLinkMetadataBridge.collectMatchesFromText` (`virtualLinkMetadata.ts`
lines 414-512): raw scan, sort, already-linked filters, overlap/exclusion/
link-once resolution, antialias filter, and the final non-empty-files filter.
`excluded` is the interval set built by `buildExcludedIntervalTree` (whose
regex construction over host metadata is supplied as data here). -/
def collectMatchesFromText (s : GSettings) (sourceId : Option Nat)
    (explicitlyLinked : List Nat) (excluded : List (Nat × Nat))
    (text : List Char) (files : List GFile) : List VirtualMatch :=
  let m4 := filterOverlapping (resolvedBeforeOverlap s sourceId explicitlyLinked text files)
    s.onlyLinkOnce excluded
  let m5 := if s.antialiasesEnabled then
      m4.filter (fun m => !isMatchExcludedByAntialias text m.vfrom m.vto m.files)
    else m4
  m5.filter (fun m => !m.files.isEmpty)

/-- How many scan positions invoke `getCurrentMatchNodes`: the loop visits
every position `0..text.length` and queries the automaton whenever the outer
gate `matchAnyPartsOfWords || matchBeginningOfWords || isWordBoundary` passes
(`virtualLinkMetadata.ts` lines 424-434). -/
def automatonQueryCount (s : GSettings) (text : List Char) : Nat :=
  ((List.range (text.length + 1)).filter
    (fun i => s.matchAnyPartsOfWords || s.matchBeginningOfWords || endBoundary text i)).length

/-- One entry of the match list built by `collectGlossaryMathMatches`
(`main.ts` line 1372): `{ from, to, text, target }` with the target document as
an opaque identifier. -/
structure MathMatch where
  mfrom : Nat
  mto : Nat
  mtext : List Char
  target : Nat
deriving DecidableEq, Repr

/-- The sort comparator of `collectGlossaryMathMatches` (`main.ts` lines
1457-1462): `from` ascending, ties broken by `(to - from)` descending. -/
def mathLt (a b : MathMatch) : Bool :=
  a.mfrom < b.mfrom || (a.mfrom == b.mfrom && b.mto - b.mfrom < a.mto - a.mfrom)

/-- The greedy non-overlap pass of `collectGlossaryMathMatches` (`main.ts`
lines 1464-1472): walk the sorted list with `lastEnd` starting at `-1`, skip a
match starting before `lastEnd`, otherwise keep it and advance `lastEnd` to
its `to`. -/
def filterNonOverlappingMath : List MathMatch → Int → List MathMatch
  | [], _ => []
  | m :: ms, lastEnd =>
    if (m.mfrom : Int) < lastEnd then
      filterNonOverlappingMath ms lastEnd
    else
      m :: filterNonOverlappingMath ms (m.mto : Int)

/-- The final resolution of `collectGlossaryMathMatches` (`main.ts` lines
1457-1474): sort, then greedily drop overlaps. -/
def resolveMathMatches (out : List MathMatch) : List MathMatch :=
  filterNonOverlappingMath (sortOrdered mathLt out) (-1)

/-- Line/column/offset triple (`LocLike` in `virtualLinkMetadata.ts`).
`line`, `col` and `offset` are non-negative by construction over `Nat`. -/
structure Loc where
  line : Nat
  col : Nat
  offset : Nat
deriving DecidableEq, Repr

/-- `VirtualLinkMetadataBridge.buildLineOffsets` (`virtualLinkMetadata.ts`
lines 574-582): the table starts with `0` and gains `i + 1` for every newline
at index `i`. -/
def buildLineOffsets (text : List Char) : List Nat :=
  0 :: ((List.range text.length).filter (fun i => text.getD i ' ' == '\n')).map (fun i => i + 1)

/-- The binary-search loop of `offsetToLoc` (`virtualLinkMetadata.ts` lines
588-607). `hi1` stands for `high + 1` so that the JavaScript `high = -1`
states are representable over `Nat`; the loop runs while `low <= high`, i.e.
`low < hi1`. `Number.MAX_SAFE_INTEGER` for the last line is modelled by the
missing-next-entry branch accepting every offset. The structural `fuel`
argument bounds the iteration count; callers pass `hi1 - low + 1` or more,
which the loop never exhausts since the interval shrinks every step, and an
exhausted loop returns the JavaScript fallback `line = 0`. -/
def searchLine (lineOffsets : List Nat) (offset : Nat) :
    Nat → Nat → Nat → Nat
  | 0, _, _ => 0
  | fuel + 1, low, hi1 =>
    if low < hi1 then
      let mid := (low + (hi1 - 1)) / 2
      let lineStart := lineOffsets.getD mid 0
      let found :=
        lineStart ≤ offset &&
        (if mid + 1 < lineOffsets.length then offset < lineOffsets.getD (mid + 1) 0 else true)
      if found then
        mid
      else if offset < lineStart then
        searchLine lineOffsets offset fuel low mid
      else
        searchLine lineOffsets offset fuel (mid + 1) hi1
    else
      0

/-- `VirtualLinkMetadataBridge.offsetToLoc` (`virtualLinkMetadata.ts` lines
584-615): clamp the raw offset to `[0, lastLineStart + 1_000_000]`
(`Int.toNat` performs the `Math.max(0, _)` step), binary-search the line, and
return line, column (`Math.max(0, offset - lineStart)` is `Nat` subtraction)
and the clamped offset. -/
def offsetToLoc (lineOffsets : List Nat) (rawOffset : Int) : Loc :=
  let lastOffset := lineOffsets.getD (lineOffsets.length - 1) 0
  let offset := (min rawOffset ((lastOffset : Int) + 1000000)).toNat
  let line := searchLine lineOffsets offset (lineOffsets.length + 1) 0 lineOffsets.length
  let lineStart := lineOffsets.getD line 0
  { line := line, col := offset - lineStart, offset := offset }

/-- `VirtualLinkMetadataBridge.locToOffset` (`virtualLinkMetadata.ts` lines
617-620): the line's start offset (falling back to the last table entry, then
`0`) plus the column; `Math.max(0, _)` is the identity over `Nat`. -/
def locToOffset (lineOffsets : List Nat) (line col : Nat) : Nat :=
  (if line < lineOffsets.length then lineOffsets.getD line 0
   else lineOffsets.getD (lineOffsets.length - 1) 0) + col

theorem mem_insertOrdered (lt : α → α → Bool) (x a : α) :
    ∀ l : List α, a ∈ insertOrdered lt x l ↔ a = x ∨ a ∈ l := by
  intro l
  induction l with
  | nil => simp [insertOrdered]
  | cons y ys ih =>
    simp only [insertOrdered]
    split
    · simp
    · simp only [List.mem_cons, ih]
      tauto

theorem mem_sortOrdered (lt : α → α → Bool) (a : α) (l : List α) :
    a ∈ sortOrdered lt l ↔ a ∈ l := by
  have key : ∀ (l : List α) (acc : List α),
      a ∈ l.foldl (fun acc x => insertOrdered lt x acc) acc ↔ a ∈ acc ∨ a ∈ l := by
    intro l
    induction l with
    | nil => simp
    | cons y ys ih =>
      intro acc
      simp only [List.foldl_cons, ih, mem_insertOrdered, List.mem_cons]
      tauto
  simpa [sortOrdered] using key l []

theorem mem_filterOverlappingAux (excluded : List (Nat × Nat)) (once : Bool)
    (m : VirtualMatch) :
    ∀ (ms : List VirtualMatch) (lastEnd : Nat) (seen : List Nat),
      m ∈ filterOverlappingAux excluded once ms lastEnd seen → m ∈ ms := by
  intro ms
  induction ms with
  | nil => simp [filterOverlappingAux]
  | cons x xs ih =>
    intro lastEnd seen h
    simp only [filterOverlappingAux] at h
    split at h
    · exact List.mem_cons_of_mem _ (ih _ _ h)
    · split at h
      · exact List.mem_cons_of_mem _ (ih _ _ h)
      · split at h
        · exact List.mem_cons_of_mem _ (ih _ _ h)
        · rcases List.mem_cons.mp h with h | h
          · exact h ▸ List.mem_cons_self x xs
          · exact List.mem_cons_of_mem _ (ih _ _ h)

theorem mem_filterAlreadyLinked (ms : List VirtualMatch) (linked : List Nat)
    (m : VirtualMatch) (h : m ∈ filterAlreadyLinked ms linked) : m ∈ ms :=
  (List.mem_filter.mp h).1

theorem mem_resolvedBeforeOverlap (s : GSettings) (sourceId : Option Nat)
    (explicitlyLinked : List Nat) (text : List Char) (files : List GFile)
    (m : VirtualMatch)
    (h : m ∈ resolvedBeforeOverlap s sourceId explicitlyLinked text files) :
    m ∈ collectRawMatches s (if s.excludeLinksToOwnNote then sourceId else none) text files := by
  simp only [resolvedBeforeOverlap] at h
  have h2 : m ∈ (if s.excludeLinksToRealLinkedFiles then
      filterAlreadyLinked (sortMatches (collectRawMatches s
        (if s.excludeLinksToOwnNote then sourceId else none) text files)) explicitlyLinked
    else sortMatches (collectRawMatches s
      (if s.excludeLinksToOwnNote then sourceId else none) text files)) := by
    split at h
    · exact mem_filterAlreadyLinked _ _ _ h
    · exact h
  have h1 : m ∈ sortMatches (collectRawMatches s
      (if s.excludeLinksToOwnNote then sourceId else none) text files) := by
    split at h2
    · exact mem_filterAlreadyLinked _ _ _ h2
    · exact h2
  simpa [sortMatches, mem_sortOrdered] using h1

/-- Every match of the resolved pipeline output is one of the raw scan
matches: each resolution stage only reorders or drops entries. -/
theorem pipeline_mem_raw (s : GSettings) (sourceId : Option Nat)
    (explicitlyLinked : List Nat) (excluded : List (Nat × Nat))
    (text : List Char) (files : List GFile) (m : VirtualMatch)
    (h : m ∈ collectMatchesFromText s sourceId explicitlyLinked excluded text files) :
    m ∈ collectRawMatches s (if s.excludeLinksToOwnNote then sourceId else none) text files := by
  simp only [collectMatchesFromText] at h
  have h5 := (List.mem_filter.mp h).1
  have h4 : m ∈ filterOverlapping (resolvedBeforeOverlap s sourceId explicitlyLinked text files)
      s.onlyLinkOnce excluded := by
    split at h5
    · exact (List.mem_filter.mp h5).1
    · exact h5
  exact mem_resolvedBeforeOverlap _ _ _ _ _ _ (mem_filterOverlappingAux _ _ _ _ _ _ h4)

theorem nodeToMatch_some (text : List Char) (endB : Bool) (node : MatchNode)
    (m : VirtualMatch) (h : nodeToMatch text endB node = some m) :
    node.start < node.stop ∧ node.stop ≤ text.length ∧
    m.vfrom = node.start ∧ m.vto = node.stop ∧
    m.files = filterFilesByMatchBoundaries node.files node.startsAtWordBoundary endB := by
  simp only [nodeToMatch] at h
  split at h
  · exact absurd h (by simp)
  · next hb =>
    split at h
    · exact absurd h (by simp)
    · injection h with h
      subst h
      simp only [Bool.or_eq_true, decide_eq_true_eq, not_or, not_le, not_lt] at hb
      exact ⟨by omega, by omega, rfl, rfl, rfl⟩

theorem mem_getCurrentMatchNodes (s : GSettings) (excl : Option Nat)
    (text : List Char) (files : List GFile) (i : Nat) (node : MatchNode) :
    node ∈ getCurrentMatchNodes s excl text files i ↔
      node.start < i ∧ node.stop = i ∧
      node.startsAtWordBoundary = startBoundary text node.start ∧
      node.files = matchingFilesAt excl text files node.start i ∧
      node.files ≠ [] ∧
      (startBoundary text node.start || s.matchAnyPartsOfWords || s.matchBeginningOfWords) = true := by
  simp only [getCurrentMatchNodes, List.mem_filterMap, List.mem_range]
  constructor
  · rintro ⟨sp, hsp, hf⟩
    split at hf
    · next hc =>
      injection hf with hf
      subst hf
      simp only [Bool.and_eq_true, Bool.not_eq_true'] at hc
      refine ⟨hsp, rfl, rfl, rfl, ?_, hc.1⟩
      simpa [List.isEmpty_iff] using hc.2
    · exact absurd hf (by simp)
  · rintro ⟨hlt, hstop, hsb, hfiles, hne, hstart⟩
    refine ⟨node.start, hlt, ?_⟩
    rw [if_pos]
    · cases node with
      | mk a b c d =>
        simp only at hstop hsb hfiles
        simp [hstop, hsb, hfiles]
    · simp only [Bool.and_eq_true, Bool.not_eq_true']
      refine ⟨hstart, ?_⟩
      rw [← hfiles]
      simpa [List.isEmpty_iff] using hne

theorem mem_collectRawMatches (s : GSettings) (excl : Option Nat)
    (text : List Char) (files : List GFile) (m : VirtualMatch) :
    m ∈ collectRawMatches s excl text files ↔
      ∃ i, i ≤ text.length ∧ ∃ node, node ∈ emittedNodesAt s excl text files i ∧
        nodeToMatch text (endBoundary text i) node = some m := by
  simp [collectRawMatches, List.mem_flatMap, List.mem_range, matchesAtPosition,
    List.mem_filterMap, Nat.lt_succ_iff]

/-- Every raw match has a non-empty span within the buffer (the `continue`
bounds check at `virtualLinkMetadata.ts` line 448). -/
theorem raw_mem_bounds (s : GSettings) (excl : Option Nat) (text : List Char)
    (files : List GFile) (m : VirtualMatch)
    (h : m ∈ collectRawMatches s excl text files) :
    m.vfrom < m.vto ∧ m.vto ≤ text.length := by
  rcases (mem_collectRawMatches s excl text files m).mp h with ⟨i, _, node, _, hm⟩
  rcases nodeToMatch_some _ _ _ _ hm with ⟨h1, h2, h3, h4, _⟩
  omega

/-- Structure of every raw match: its span, boundary flags and file list come
from a gated automaton terminal at its own end position. -/
theorem raw_mem_structure (s : GSettings) (excl : Option Nat) (text : List Char)
    (files : List GFile) (m : VirtualMatch)
    (h : m ∈ collectRawMatches s excl text files) :
    m.files = filterFilesByMatchBoundaries
      (matchingFilesAt excl text files m.vfrom m.vto)
      (startBoundary text m.vfrom) (endBoundary text m.vto) := by
  rcases (mem_collectRawMatches s excl text files m).mp h with ⟨i, _, node, hn, hm⟩
  have hg : node ∈ getCurrentMatchNodes s excl text files i := by
    simp only [emittedNodesAt] at hn
    split at hn
    · exact (List.mem_filter.mp hn).1
    · exact absurd hn (by simp)
  rcases (mem_getCurrentMatchNodes s excl text files i node).mp hg with
    ⟨_, hstop, hsb, hfiles, _, _⟩
  rcases nodeToMatch_some _ _ _ _ hm with ⟨_, _, h3, h4, h5⟩
  rw [h5, hsb, hfiles, h3, h4, hstop]

theorem filterOverlappingAux_ge (excluded : List (Nat × Nat)) (once : Bool) :
    ∀ (ms : List VirtualMatch) (lastEnd : Nat) (seen : List Nat),
      (∀ x ∈ ms, x.vfrom < x.vto) →
      ∀ y ∈ filterOverlappingAux excluded once ms lastEnd seen, lastEnd ≤ y.vfrom := by
  intro ms
  induction ms with
  | nil => intro lastEnd seen _ y hy; simp [filterOverlappingAux] at hy
  | cons m ms ih =>
    intro lastEnd seen hlt y hy
    have hms : ∀ x ∈ ms, x.vfrom < x.vto := fun x hx => hlt x (List.mem_cons_of_mem _ hx)
    simp only [filterOverlappingAux] at hy
    split at hy
    · exact ih _ _ hms y hy
    · split at hy
      · exact ih _ _ hms y hy
      · next hB =>
        split at hy
        · exact ih _ _ hms y hy
        · rcases List.mem_cons.mp hy with rfl | hy'
          · omega
          · have h1 := ih _ _ hms y hy'
            have h2 := hlt m (List.mem_cons_self m ms)
            omega

theorem filterOverlappingAux_pairwise (excluded : List (Nat × Nat)) (once : Bool) :
    ∀ (ms : List VirtualMatch) (lastEnd : Nat) (seen : List Nat),
      (∀ x ∈ ms, x.vfrom < x.vto) →
      List.Pairwise (fun a b => a.vfrom < b.vfrom ∧ a.vto ≤ b.vfrom)
        (filterOverlappingAux excluded once ms lastEnd seen) := by
  intro ms
  induction ms with
  | nil => intro _ _ _; simp [filterOverlappingAux]
  | cons m ms ih =>
    intro lastEnd seen hlt
    have hms : ∀ x ∈ ms, x.vfrom < x.vto := fun x hx => hlt x (List.mem_cons_of_mem _ hx)
    have hm := hlt m (List.mem_cons_self m ms)
    simp only [filterOverlappingAux]
    split
    · exact ih _ _ hms
    · split
      · exact ih _ _ hms
      · split
        · exact ih _ _ hms
        · refine List.Pairwise.cons ?_ (ih _ _ hms)
          intro y hy
          have hge := filterOverlappingAux_ge excluded once ms m.vto _ hms y hy
          exact ⟨by omega, hge⟩

theorem filterOverlappingAux_excluded (excluded : List (Nat × Nat)) (once : Bool) :
    ∀ (ms : List VirtualMatch) (lastEnd : Nat) (seen : List Nat) (y : VirtualMatch),
      y ∈ filterOverlappingAux excluded once ms lastEnd seen →
      ∀ r ∈ excluded, ¬(y.vfrom < r.2 ∧ r.1 < y.vto) := by
  intro ms
  induction ms with
  | nil => intro _ _ y hy; simp [filterOverlappingAux] at hy
  | cons m ms ih =>
    intro lastEnd seen y hy r hr
    simp only [filterOverlappingAux] at hy
    split at hy
    · exact ih _ _ y hy r hr
    · next hA =>
      split at hy
      · exact ih _ _ y hy r hr
      · split at hy
        · exact ih _ _ y hy r hr
        · rcases List.mem_cons.mp hy with rfl | hy'
          · intro hcon
            apply hA
            simp only [List.any_eq_true]
            exact ⟨r, hr, by simp [hcon.1, hcon.2]⟩
          · exact ih _ _ y hy' r hr

/-- C1: for every text, term set and policy, the resolved VirtualMatch list of
the scan pipeline is sorted by `from` ascending and no two of its entries have
overlapping `[from, to)` ranges (every entry ends no later than the next
begins). -/
theorem c1_resolved_sorted_nonoverlapping (s : GSettings) (sourceId : Option Nat)
    (explicitlyLinked : List Nat) (excluded : List (Nat × Nat))
    (text : List Char) (files : List GFile) :
    List.Pairwise (fun a b => a.vfrom < b.vfrom ∧ a.vto ≤ b.vfrom)
      (collectMatchesFromText s sourceId explicitlyLinked excluded text files) := by
  have h4 : List.Pairwise (fun a b => a.vfrom < b.vfrom ∧ a.vto ≤ b.vfrom)
      (filterOverlapping (resolvedBeforeOverlap s sourceId explicitlyLinked text files)
        s.onlyLinkOnce excluded) := by
    simp only [filterOverlapping]
    apply filterOverlappingAux_pairwise
    intro x hx
    exact (raw_mem_bounds _ _ _ _ _ (mem_resolvedBeforeOverlap _ _ _ _ _ _ hx)).1
  simp only [collectMatchesFromText]
  refine List.Pairwise.sublist (List.filter_sublist _) ?_
  split
  · exact List.Pairwise.sublist (List.filter_sublist _) h4
  · exact h4

/-- C7: every resolved VirtualMatch has `to` strictly greater than `from` and
`to` within the buffer (`to ≤ text.length`; `from ≥ 0` holds by construction
over `Nat`, so both offsets lie in `[0, text.length]`). -/
theorem c7_match_bounds (s : GSettings) (sourceId : Option Nat)
    (explicitlyLinked : List Nat) (excluded : List (Nat × Nat))
    (text : List Char) (files : List GFile) (m : VirtualMatch)
    (h : m ∈ collectMatchesFromText s sourceId explicitlyLinked excluded text files) :
    m.vfrom < m.vto ∧ m.vto ≤ text.length :=
  raw_mem_bounds _ _ _ _ _ (pipeline_mem_raw _ _ _ _ _ _ _ h)

def c7file : GFile := ⟨0, ['a', 'b'], false, [['a', 'b']], []⟩

def c7match : VirtualMatch := ⟨['a', 'b'], 0, 2, [c7file], false, false⟩

theorem c7_match_bounds_witness :
    c7match.vfrom < c7match.vto ∧ c7match.vto ≤ (['a', 'b'] : List Char).length :=
  c7_match_bounds ⟨false, false, false, false, false, false, false⟩ none [] []
    ['a', 'b'] [c7file] c7match (by decide)

/-- C3: a document flagged exact-match-only appears in a resolved VirtualMatch
only when the match both starts and ends at a word boundary, regardless of the
match-any-part / match-beginning / match-end settings. -/
theorem c3_exact_match_requires_boundaries (s : GSettings) (sourceId : Option Nat)
    (explicitlyLinked : List Nat) (excluded : List (Nat × Nat))
    (text : List Char) (files : List GFile) (m : VirtualMatch) (f : GFile)
    (hm : m ∈ collectMatchesFromText s sourceId explicitlyLinked excluded text files)
    (hf : f ∈ m.files) (hx : f.exactMatchOnly = true) :
    startBoundary text m.vfrom = true ∧ endBoundary text m.vto = true := by
  have hraw := pipeline_mem_raw _ _ _ _ _ _ _ hm
  have hstruct := raw_mem_structure _ _ _ _ _ hraw
  rw [hstruct] at hf
  have hcond := (List.mem_filter.mp hf).2
  rw [hx] at hcond
  simp only [Bool.not_true, Bool.false_or, Bool.and_eq_true] at hcond
  exact hcond

def c3file : GFile := ⟨0, ['a', 'b'], true, [['a', 'b']], []⟩

def c3match : VirtualMatch := ⟨['a', 'b'], 0, 2, [c3file], false, false⟩

theorem c3_exact_match_requires_boundaries_witness :
    startBoundary ['a', 'b'] c3match.vfrom = true ∧
    endBoundary ['a', 'b'] c3match.vto = true :=
  c3_exact_match_requires_boundaries ⟨false, false, false, false, false, false, false⟩
    none [] [] ['a', 'b'] [c3file] c3match c3file (by decide) (by decide) rfl

/-- C6: no resolved VirtualMatch intersects any of the exclusion ranges the
pipeline was given (the candidate intersection filter discards them before
resolution). -/
theorem c6_no_match_in_excluded_ranges (s : GSettings) (sourceId : Option Nat)
    (explicitlyLinked : List Nat) (excluded : List (Nat × Nat))
    (text : List Char) (files : List GFile) (m : VirtualMatch) (r : Nat × Nat)
    (hm : m ∈ collectMatchesFromText s sourceId explicitlyLinked excluded text files)
    (hr : r ∈ excluded) : ¬(m.vfrom < r.2 ∧ r.1 < m.vto) := by
  simp only [collectMatchesFromText] at hm
  have h5 := (List.mem_filter.mp hm).1
  have h4 : m ∈ filterOverlapping (resolvedBeforeOverlap s sourceId explicitlyLinked text files)
      s.onlyLinkOnce excluded := by
    split at h5
    · exact (List.mem_filter.mp h5).1
    · exact h5
  simp only [filterOverlapping] at h4
  exact filterOverlappingAux_excluded excluded s.onlyLinkOnce _ _ _ m h4 r hr

def c6file : GFile := ⟨1, ['c', 'd'], false, [['c', 'd']], []⟩

def c6match : VirtualMatch := ⟨['c', 'd'], 3, 5, [c6file], false, false⟩

theorem c6_no_match_in_excluded_ranges_witness :
    ¬(c6match.vfrom < 2 ∧ 0 < c6match.vto) :=
  c6_no_match_in_excluded_ranges ⟨false, false, false, false, false, false, false⟩
    none [] [(0, 2)] ['a', 'b', ' ', 'c', 'd'] [c6file] c6match (0, 2)
    (by decide) (by decide)

/-- C4: the resolution of `collectGlossaryMathMatches` sorts by `from`
ascending with ties broken by `(to - from)` descending and then keeps a
candidate only when it starts no earlier than the end of the last kept one;
hence of two overlapping candidates ending at the same offset — or starting at
the same offset — the longer one is kept and the shorter one dropped,
whichever order they arrived in. -/
theorem c4_overlap_tiebreak (a b : MathMatch)
    (hab : (a.mfrom < b.mfrom ∧ a.mto = b.mto) ∨ (a.mfrom = b.mfrom ∧ b.mto < a.mto))
    (hb : b.mfrom < b.mto) :
    resolveMathMatches [a, b] = [a] ∧ resolveMathMatches [b, a] = [a] := by
  have h1 : mathLt a b = true := by
    simp only [mathLt, Bool.or_eq_true, Bool.and_eq_true, decide_eq_true_eq, beq_iff_eq]
    rcases hab with ⟨h, h'⟩ | ⟨h, h'⟩
    · exact Or.inl h
    · exact Or.inr ⟨h, by omega⟩
  have h2 : mathLt b a = false := by
    rw [Bool.eq_false_iff]
    simp only [ne_eq, mathLt, Bool.or_eq_true, Bool.and_eq_true, decide_eq_true_eq,
      beq_iff_eq]
    rintro (h | ⟨h, h'⟩) <;> rcases hab with ⟨g, g'⟩ | ⟨g, g'⟩ <;> omega
  have hs1 : sortOrdered mathLt [a, b] = [a, b] := by
    simp [sortOrdered, insertOrdered, h2]
  have hs2 : sortOrdered mathLt [b, a] = [a, b] := by
    simp [sortOrdered, insertOrdered, h1]
  have hg : filterNonOverlappingMath [a, b] (-1) = [a] := by
    have c1 : ¬ ((a.mfrom : Int) < -1) := by omega
    have c2 : (b.mfrom : Int) < (a.mto : Int) := by
      rcases hab with ⟨g, g'⟩ | ⟨g, g'⟩ <;> omega
    simp [filterNonOverlappingMath, c1, c2]
  constructor
  · rw [resolveMathMatches, hs1, hg]
  · rw [resolveMathMatches, hs2, hg]

def c4a : MathMatch := ⟨0, 8, ['N', 'e', 'w', ' ', 'Y', 'o', 'r', 'k'], 0⟩

def c4b : MathMatch := ⟨4, 8, ['Y', 'o', 'r', 'k'], 1⟩

theorem c4_overlap_tiebreak_witness :
    resolveMathMatches [c4a, c4b] = [c4a] ∧ resolveMathMatches [c4b, c4a] = [c4a] :=
  c4_overlap_tiebreak c4a c4b (by decide) (by decide)

/-- The emission gate exactly as the specification words it (section 4.2,
"Emission gating"), written down to compare against the implemented rule:
with match-any-part on, always; otherwise (starts at a boundary OR
match-beginning) AND (ends at a boundary OR match-end). -/
def specEmissionAllowed (s : GSettings) (startB endB : Bool) : Bool :=
  s.matchAnyPartsOfWords ||
  ((startB || s.matchBeginningOfWords) && (endB || s.matchEndOfWords))

/-- The emission gate the scan loops actually implement, as a single boolean
formula: with match-any-part on, always; with match-beginning off, only when
the candidate starts AND ends at a word boundary (match-end alone changes
nothing); with match-beginning on, unless match-end is also on and the
candidate neither starts nor ends at a word boundary. -/
def codeEmissionAllowed (s : GSettings) (startB endB : Bool) : Bool :=
  s.matchAnyPartsOfWords ||
  (s.matchBeginningOfWords && (startB || !s.matchEndOfWords || endB)) ||
  (!s.matchBeginningOfWords && startB && endB)

theorem emission_bool_bridge : ∀ mA mB mE sB eB : Bool,
    ((sB || mA || mB) && ((mA || mB || eB) && !(!mA && mB && !sB && mE && !eB))) =
    (mA || (mB && (sB || !mE || eB)) || (!mB && sB && eB)) := by
  decide

/-- C2 counterexample: with only "match end of words" enabled, term "ab" and
text "abc", a terminal is reached at span `[0, 2)` that starts at a word
boundary and ends inside a word — the spec's gate says it is emitted, but the
scan emits no candidate at all (the outer gate never examines the position
because the following character is not a boundary). -/
theorem c2_counterexample :
    specEmissionAllowed ⟨false, false, true, false, false, false, false⟩
      (startBoundary ['a', 'b', 'c'] 0) (endBoundary ['a', 'b', 'c'] 2) = true ∧
    matchingFilesAt none ['a', 'b', 'c'] [⟨0, ['a', 'b'], false, [['a', 'b']], []⟩] 0 2 ≠ [] ∧
    collectRawNodes ⟨false, false, true, false, false, false, false⟩ none ['a', 'b', 'c']
      [⟨0, ['a', 'b'], false, [['a', 'b']], []⟩] = [] := by
  decide

/-- C2 as amended: a candidate over span `[sp, i)` is emitted by the scan if
and only if the span lies in the buffer, some document's name variant matches
it, and the code's emission gate passes on its boundary flags: with
match-any-part enabled, always; with match-beginning disabled, only when the
span starts AND ends at a word boundary; with match-beginning enabled, unless
match-end is also enabled and the span neither starts nor ends at a word
boundary. -/
theorem c2_emission_gating (s : GSettings) (excl : Option Nat)
    (text : List Char) (files : List GFile) (sp i : Nat) :
    (∃ node, node ∈ collectRawNodes s excl text files ∧ node.start = sp ∧ node.stop = i) ↔
    (sp < i ∧ i ≤ text.length ∧ matchingFilesAt excl text files sp i ≠ [] ∧
     codeEmissionAllowed s (startBoundary text sp) (endBoundary text i) = true) := by
  constructor
  · rintro ⟨node, hmem, hsp, hstop⟩
    simp only [collectRawNodes, List.mem_flatMap, List.mem_range] at hmem
    rcases hmem with ⟨j, hj, hnode⟩
    simp only [emittedNodesAt] at hnode
    split at hnode
    case isFalse => simp at hnode
    case isTrue hgate =>
      have hfil := List.mem_filter.mp hnode
      rcases (mem_getCurrentMatchNodes s excl text files j node).mp hfil.1 with
        ⟨hlt, hstopj, hsb, hfiles, hne, hstart⟩
      have hkeep := hfil.2
      have hij : i = j := by rw [← hstop, hstopj]
      subst hij
      subst hsp
      rw [hsb] at hkeep
      refine ⟨hlt, by omega, ?_, ?_⟩
      · rw [← hfiles]; exact hne
      · simp only [codeEmissionAllowed]
        rw [← emission_bool_bridge, hstart, hgate, hkeep]
        rfl
  · rintro ⟨hlt, hle, hne, hcode⟩
    have hall : ((startBoundary text sp || s.matchAnyPartsOfWords || s.matchBeginningOfWords) &&
        ((s.matchAnyPartsOfWords || s.matchBeginningOfWords || endBoundary text i) &&
          !(!s.matchAnyPartsOfWords && s.matchBeginningOfWords && !startBoundary text sp &&
            s.matchEndOfWords && !endBoundary text i))) = true := by
      rw [emission_bool_bridge]
      simpa only [codeEmissionAllowed] using hcode
    simp only [Bool.and_eq_true] at hall
    obtain ⟨hstart, hgate, hkeep⟩ := hall
    refine ⟨⟨sp, i, matchingFilesAt excl text files sp i, startBoundary text sp⟩, ?_, rfl, rfl⟩
    simp only [collectRawNodes, List.mem_flatMap, List.mem_range]
    refine ⟨i, by omega, ?_⟩
    simp only [emittedNodesAt]
    rw [if_pos hgate]
    apply List.mem_filter.mpr
    refine ⟨?_, ?_⟩
    · exact (mem_getCurrentMatchNodes s excl text files i _).mpr ⟨hlt, rfl, rfl, rfl, hne, hstart⟩
    · exact hkeep

theorem filterOverlappingAux_fresh (excluded : List (Nat × Nat)) :
    ∀ (ms : List VirtualMatch) (lastEnd : Nat) (seen : List Nat),
      List.Pairwise (fun a b => ∃ f, f ∈ b.files ∧ ∀ g ∈ a.files, g.path ≠ f.path)
        (filterOverlappingAux excluded true ms lastEnd seen) ∧
      ∀ y ∈ filterOverlappingAux excluded true ms lastEnd seen,
        ∃ f, f ∈ y.files ∧ f.path ∉ seen := by
  intro ms
  induction ms with
  | nil =>
    intro _ _
    refine ⟨by simp [filterOverlappingAux], by simp [filterOverlappingAux]⟩
  | cons m ms ih =>
    intro lastEnd seen
    simp only [filterOverlappingAux]
    split
    · exact ih _ _
    · split
      · exact ih _ _
      · split
        · exact ih _ _
        · next hC =>
          have hex : ∃ f, f ∈ m.files ∧ f.path ∉ seen := by
            simp only [Bool.true_and, List.all_eq_true] at hC
            push_neg at hC
            rcases hC with ⟨f, hf, hfc⟩
            exact ⟨f, hf, by simpa using hfc⟩
          constructor
          · refine List.Pairwise.cons ?_ (ih m.vto (seen ++ m.files.map fun f => f.path)).1
            intro y hy
            rcases (ih _ _).2 y hy with ⟨f, hf, hfn⟩
            refine ⟨f, hf, ?_⟩
            intro g hg hgf
            exact hfn (List.mem_append.mpr (Or.inr (List.mem_map.mpr ⟨g, hg, hgf⟩)))
          · intro y hy
            rcases List.mem_cons.mp hy with rfl | hy'
            · exact hex
            · rcases (ih _ _).2 y hy' with ⟨f, hf, hfn⟩
              exact ⟨f, hf, fun hf2 => hfn (List.mem_append.mpr (Or.inl hf2))⟩

def c5fileE : GFile := ⟨0, ['e'], false, [['a', 'b', ' ', 'c', 'd']], []⟩

def c5fileD : GFile := ⟨1, ['c', 'd'], false, [['c', 'd']], []⟩

def c5text : List Char := ['a', 'b', ' ', 'c', 'd', ' ', 'c', 'd']

def c5settings : GSettings := ⟨false, false, false, false, false, true, false⟩

/-- C5 counterexample: with link-once enabled, document 1 ("cd") is matched by
raw candidates at offsets 3 and 6, but the resolved list keeps the occurrence
at offset 6, not the first occurrence at offset 3: that first occurrence is
consumed by the overlap filter against the longer match "ab cd" of document 0,
so the kept match for a document is not always its first occurrence in `from`
order. -/
theorem c5_counterexample :
    (collectRawMatches c5settings none c5text [c5fileE, c5fileD]).any
      (fun m => m.vfrom == 3 && m.files.any (fun f => f.path == 1)) = true ∧
    (collectMatchesFromText c5settings none [] [] c5text [c5fileE, c5fileD]).any
      (fun m => m.vfrom == 3 && m.files.any (fun f => f.path == 1)) = false ∧
    (collectMatchesFromText c5settings none [] [] c5text [c5fileE, c5fileD]).any
      (fun m => m.vfrom == 6 && m.files.any (fun f => f.path == 1)) = true := by
  decide

/-- C5 as amended: when "link once per document" is enabled, every resolved
match carries at least one target document that no earlier resolved match
targets; in particular, when every match has a single target document, at most
one match per target document survives, and the survivor is the earliest
occurrence that passes the exclusion and overlap filters (not necessarily the
first occurrence in the text). -/
theorem c5_link_once_fresh_target (s : GSettings) (sourceId : Option Nat)
    (explicitlyLinked : List Nat) (excluded : List (Nat × Nat))
    (text : List Char) (files : List GFile) (h : s.onlyLinkOnce = true) :
    List.Pairwise (fun a b => ∃ f, f ∈ b.files ∧ ∀ g ∈ a.files, g.path ≠ f.path)
      (collectMatchesFromText s sourceId explicitlyLinked excluded text files) := by
  have h4 : List.Pairwise (fun a b => ∃ f, f ∈ b.files ∧ ∀ g ∈ a.files, g.path ≠ f.path)
      (filterOverlapping (resolvedBeforeOverlap s sourceId explicitlyLinked text files)
        s.onlyLinkOnce excluded) := by
    simp only [filterOverlapping, h]
    exact (filterOverlappingAux_fresh excluded _ 0 []).1
  simp only [collectMatchesFromText]
  refine List.Pairwise.sublist (List.filter_sublist _) ?_
  split
  · exact List.Pairwise.sublist (List.filter_sublist _) h4
  · exact h4

theorem c5_link_once_fresh_target_witness :
    List.Pairwise (fun a b => ∃ f, f ∈ b.files ∧ ∀ g ∈ a.files, g.path ≠ f.path)
      (collectMatchesFromText c5settings none [] [] c5text [c5fileE, c5fileD]) :=
  c5_link_once_fresh_target c5settings none [] [] c5text [c5fileE, c5fileD] rfl

theorem resolvedBeforeOverlap_nil (s : GSettings) (sourceId : Option Nat)
    (linked : List Nat) (text : List Char) (files : List GFile)
    (h : collectRawMatches s (if s.excludeLinksToOwnNote then sourceId else none) text files = []) :
    resolvedBeforeOverlap s sourceId linked text files = [] := by
  simp only [resolvedBeforeOverlap, h]
  split <;> split <;> rfl

theorem pipeline_empty_of_raw_empty (s : GSettings) (sourceId : Option Nat)
    (linked : List Nat) (excluded : List (Nat × Nat)) (text : List Char)
    (files : List GFile)
    (h : collectRawMatches s (if s.excludeLinksToOwnNote then sourceId else none) text files = []) :
    collectMatchesFromText s sourceId linked excluded text files = [] := by
  have h3 := resolvedBeforeOverlap_nil s sourceId linked text files h
  simp only [collectMatchesFromText, h3]
  have h4 : filterOverlapping ([] : List VirtualMatch) s.onlyLinkOnce excluded = [] := rfl
  rw [h4]
  split <;> rfl

/-- C8 counterexample: on the empty text the scan loop still runs its single
iteration over the synthesized trailing boundary character and queries the
automaton once (the claim says the degenerate input short-circuits without
invoking the automaton); the result is nevertheless empty. -/
theorem c8_counterexample :
    automatonQueryCount ⟨false, false, false, false, false, false, false⟩ [] = 1 ∧
    collectMatchesFromText ⟨false, false, false, false, false, false, false⟩ none [] [] []
      [⟨0, ['a', 'b'], false, [['a', 'b']], []⟩] = [] := by
  decide

/-- C8 as amended: for every degenerate input (empty text buffer or zero
terms) scanning and resolution return the empty match list and nothing fails;
the bridge's scan loop is not short-circuited, however — it still steps
through its positions and queries the automaton, which harmlessly yields no
terminals (only the rendered-text path skips empty text nodes up front). -/
theorem c8_degenerate_empty (s : GSettings) (sourceId : Option Nat)
    (linked : List Nat) (excluded : List (Nat × Nat)) (text : List Char)
    (files : List GFile) (h : text = [] ∨ files = []) :
    collectMatchesFromText s sourceId linked excluded text files = [] := by
  apply pipeline_empty_of_raw_empty
  rcases h with rfl | rfl
  · simp [collectRawMatches, matchesAtPosition, emittedNodesAt, getCurrentMatchNodes]
  · have hnode : ∀ i, emittedNodesAt s (if s.excludeLinksToOwnNote then sourceId else none)
        text [] i = [] := by
      intro i
      have hg : getCurrentMatchNodes s (if s.excludeLinksToOwnNote then sourceId else none)
          text [] i = [] := by
        simp [getCurrentMatchNodes, matchingFilesAt]
      simp [emittedNodesAt, hg]
    simp [collectRawMatches, matchesAtPosition, hnode]

theorem c8_degenerate_empty_witness :
    collectMatchesFromText ⟨false, false, false, false, false, false, false⟩ none [] []
      [] [⟨1, ['x'], false, [['x']], []⟩] = [] :=
  c8_degenerate_empty ⟨false, false, false, false, false, false, false⟩ none [] []
    [] [⟨1, ['x'], false, [['x']], []⟩] (Or.inl rfl)

theorem searchLine_lt (table : List Nat) (offset : Nat) :
    ∀ (fuel low hi1 : Nat), 0 < table.length → hi1 ≤ table.length →
      searchLine table offset fuel low hi1 < table.length := by
  intro fuel
  induction fuel with
  | zero =>
    intro low hi1 h0 _
    simpa [searchLine] using h0
  | succ fuel ih =>
    intro low hi1 h0 hh
    simp only [searchLine]
    split
    · next hlh =>
      split <;> split
      · omega
      · split
        · exact ih _ _ h0 (by omega)
        · exact ih _ _ h0 hh
      · omega
      · split
        · exact ih _ _ h0 (by omega)
        · exact ih _ _ h0 hh
    · exact h0

theorem searchLine_start_le (table : List Nat) (offset : Nat)
    (h0 : table.getD 0 0 ≤ offset) :
    ∀ (fuel low hi1 : Nat), table.getD (searchLine table offset fuel low hi1) 0 ≤ offset := by
  intro fuel
  induction fuel with
  | zero =>
    intro low hi1
    simpa only [searchLine] using h0
  | succ fuel ih =>
    intro low hi1
    simp only [searchLine]
    split
    · split <;> split
      · next hfound =>
        simp only [Bool.and_eq_true, decide_eq_true_eq] at hfound
        exact hfound.1
      · split
        · exact ih _ _
        · exact ih _ _
      · next hfound =>
        simp only [Bool.and_true, decide_eq_true_eq] at hfound
        exact hfound
      · split
        · exact ih _ _
        · exact ih _ _
    · exact h0

/-- C9 counterexample: `offsetToLoc` does not clamp the offset to the buffer's
bounds — on the two-character text "ab" the raw offset `500` comes back as
offset `500`, far past `text.length = 2`, because the code clamps to
`lastLineStart + 1_000_000` instead. -/
theorem c9_counterexample :
    (offsetToLoc (buildLineOffsets ['a', 'b']) 500).offset = 500 ∧
    (['a', 'b'] : List Char).length < 500 := by
  decide

/-- C9 as amended: for every text and every integer raw offset (negative and
past-end included), `offsetToLoc` over the text's line-start table returns a
valid line index into the table and a column no larger than the returned
offset (both non-negative by construction), and the returned offset is
clamped to `[0, lastLineStart + 1_000_000]` — not to the buffer's length. The
table is never indexed out of range. -/
theorem c9_offset_loc_safe (text : List Char) (rawOffset : Int) :
    (offsetToLoc (buildLineOffsets text) rawOffset).line < (buildLineOffsets text).length ∧
    (offsetToLoc (buildLineOffsets text) rawOffset).col ≤
      (offsetToLoc (buildLineOffsets text) rawOffset).offset ∧
    (offsetToLoc (buildLineOffsets text) rawOffset).offset ≤
      (buildLineOffsets text).getD ((buildLineOffsets text).length - 1) 0 + 1000000 := by
  have hpos : 0 < (buildLineOffsets text).length := by
    simp [buildLineOffsets]
  simp only [offsetToLoc]
  refine ⟨searchLine_lt _ _ _ _ _ hpos (le_refl _), Nat.sub_le _ _, ?_⟩
  omega

/-- C10 as amended: position conversion round-trips —
`locToOffset (offsetToLoc o) = o` — for every offset `o` with
`0 ≤ o ≤ text.length`, provided `o` does not exceed the clamp bound
`lastLineStart + 1_000_000` (equivalently, the text's final line holds at most
1,000,000 characters past its start; for longer final lines the clamp breaks
the round trip). -/
theorem c10_roundtrip (text : List Char) (o : Nat)
    (_h1 : o ≤ text.length)
    (h2 : o ≤ (buildLineOffsets text).getD ((buildLineOffsets text).length - 1) 0 + 1000000) :
    locToOffset (buildLineOffsets text)
      (offsetToLoc (buildLineOffsets text) (o : Int)).line
      (offsetToLoc (buildLineOffsets text) (o : Int)).col = o := by
  have hofs : (min (o : Int)
      (((buildLineOffsets text).getD ((buildLineOffsets text).length - 1) 0 : Nat) + 1000000)).toNat = o := by
    omega
  have hpos : 0 < (buildLineOffsets text).length := by
    simp [buildLineOffsets]
  have hzero : (buildLineOffsets text).getD 0 0 ≤ o := by
    simp [buildLineOffsets]
  simp only [offsetToLoc, hofs]
  have hlt : searchLine (buildLineOffsets text) o ((buildLineOffsets text).length + 1) 0
      (buildLineOffsets text).length < (buildLineOffsets text).length :=
    searchLine_lt _ _ _ _ _ hpos (le_refl _)
  have hle : (buildLineOffsets text).getD
      (searchLine (buildLineOffsets text) o ((buildLineOffsets text).length + 1) 0
        (buildLineOffsets text).length) 0 ≤ o :=
    searchLine_start_le _ _ hzero _ _ _
  simp only [locToOffset]
  rw [if_pos hlt]
  omega

theorem c10_roundtrip_witness :
    locToOffset (buildLineOffsets ['a', '\n', 'b'])
      (offsetToLoc (buildLineOffsets ['a', '\n', 'b']) ((2 : Nat) : Int)).line
      (offsetToLoc (buildLineOffsets ['a', '\n', 'b']) ((2 : Nat) : Int)).col = 2 :=
  c10_roundtrip ['a', '\n', 'b'] 2 (by decide) (by decide)

theorem replicate_a_getD (n i : Nat) :
    ((List.replicate n 'a').getD i ' ' == '\n') = false := by
  induction n generalizing i with
  | zero =>
    cases i <;> rfl
  | succ n ih =>
    cases i with
    | zero => rfl
    | succ i => simpa [List.replicate_succ, List.getD_cons_succ] using ih i

theorem buildLineOffsets_replicate_a (n : Nat) :
    buildLineOffsets (List.replicate n 'a') = [0] := by
  simp only [buildLineOffsets, List.length_replicate, List.cons.injEq, true_and]
  rw [List.filter_eq_nil_iff.mpr, List.map_nil]
  intro i _
  rw [replicate_a_getD n i]
  exact Bool.false_ne_true

/-- C10 counterexample: on a single-line text of 1,000,001 characters, the
offset `o = 1,000,001 = text.length` is clamped to `lastLineStart + 1_000_000
= 1_000_000` by `offsetToLoc`, so `locToOffset` maps the location back to
`1_000_000 ≠ o`: the round trip fails for texts whose final line exceeds
1,000,000 characters. -/
theorem c10_counterexample :
    1000001 ≤ (List.replicate 1000001 'a').length ∧
    locToOffset (buildLineOffsets (List.replicate 1000001 'a'))
      (offsetToLoc (buildLineOffsets (List.replicate 1000001 'a')) 1000001).line
      (offsetToLoc (buildLineOffsets (List.replicate 1000001 'a')) 1000001).col ≠ 1000001 := by
  rw [buildLineOffsets_replicate_a, List.length_replicate]
  exact ⟨le_refl _, by decide⟩
